import Mathlib

/-!
Verification of the crypto vanity generator against its specification.

The repository is Python; pure fragments are shallowly embedded as Lean
functions.  Python `bytes` values are modelled as `List Nat` (each element a
byte value `< 256`, stated as a hypothesis where it matters), Python `str`
values as `List Char` (for address/pattern data) or `String` (for atomic
enumeration-like values such as currency codes).  Python `float` arithmetic in
the difficulty estimator is modelled over `ℚ`.  Fallible code is modelled with
`Except`/`Option`.  All recursion is structural (loops on numbers recurse on an
explicit fuel argument bounded by the loop value), so every definition
evaluates inside the kernel.
-/

/-- Python `int.from_bytes(data, 'big')`: big-endian byte-string to natural
number, as used by `bitcoin_like.py`, `tron.py` and `optimized.py`. -/
def bytesToNat (data : List Nat) : Nat :=
  data.foldl (fun acc b => acc * 256 + b) 0

/-- Count of leading zero bytes, mirroring the `for byte in data: if byte == 0:
leading_zeros += 1 else: break` loop of `_ultra_fast_base58` and
`_fast_base58_encode` in `src/networks/optimized.py`. -/
def countLeadingZeroBytes : List Nat → Nat
  | [] => 0
  | b :: rest => if b = 0 then countLeadingZeroBytes rest + 1 else 0

/-- Little-endian digit expansion with an explicit fuel so that the recursion
is structural; `digitsLE` instantiates the fuel with the number itself, which
always suffices. -/
def digitsLEAux (base : Nat) : Nat → Nat → List Nat
  | 0, _ => []
  | fuel + 1, n => if n = 0 then [] else n % base :: digitsLEAux base fuel (n / base)

/-- Little-endian minimal digit expansion of `n` in the given base
(executable counterpart of `Nat.digits`). -/
def digitsLE (base n : Nat) : List Nat :=
  digitsLEAux base n n

/-- The Base58 alphabet constant `base58_alphabet` of
`src/networks/optimized.py` (also the alphabet of the `base58` library used by
`src/networks/bitcoin_like.py`). -/
def base58AlphabetChars : List Char :=
  "123456789ABCDEFGHJKLMNPQRSTUVWXYZabcdefghijkmnopqrstuvwxyz".toList

/-- Python `self.base58_alphabet[d]`: the character for one Base58 digit. -/
def b58Char (d : Nat) : Char :=
  base58AlphabetChars.getD d '1'

/-- The `while num > 0: num, remainder = divmod(num, 58); encoded =
alphabet[remainder] + encoded` loop shared by `_ultra_fast_base58` and
`_fast_base58_encode` in `src/networks/optimized.py`, with fuel making the
recursion structural. -/
def b58LoopAux : Nat → Nat → List Char → List Char
  | 0, _, acc => acc
  | fuel + 1, num, acc =>
      if num = 0 then acc
      else b58LoopAux fuel (num / 58) (b58Char (num % 58) :: acc)

/-- The Base58 digit-emission loop, entered with `fuel = num` (always enough
fuel, since the loop runs at most `log₅₈ num + 1 ≤ num` times). -/
def b58Loop (num : Nat) (acc : List Char) : List Char :=
  b58LoopAux num num acc

/-- The pure (cache-free) computation of
`OptimizedTronNetwork._ultra_fast_base58` in `src/networks/optimized.py`:
count leading zero bytes; convert to a number; `'1' * len(data)` when the
number is zero, otherwise `'1' * leading_zeros` plus the base-58 expansion. -/
def ultraFastBase58Pure (data : List Nat) : List Char :=
  let leadingZeros := countLeadingZeroBytes data
  let num := bytesToNat data
  if num = 0 then List.replicate data.length '1'
  else List.replicate leadingZeros '1' ++ b58Loop num []

/-- The pure (cache-free) computation of
`OptimizedBitcoinNetwork._fast_base58_encode` in `src/networks/optimized.py`:
same loop, but without the special case for a zero number (the loop simply
emits nothing then). -/
def fastBase58EncodePure (data : List Nat) : List Char :=
  let leadingZeros := countLeadingZeroBytes data
  let num := bytesToNat data
  List.replicate leadingZeros '1' ++ b58Loop num []

/-- Modelled from the spec: the external `base58.b58encode` library function
used by `src/networks/bitcoin_like.py` and `src/networks/tron.py` is not part
of this repository; the spec (§4.1) and the claim describe it as mapping each
leading zero byte to `'1'` and the remainder to the big-endian base-58
expansion over the alphabet `123456789...xyz`.  This is the claim-side
reference encoder for the refinement claim. -/
def b58encodeSpec (data : List Nat) : List Char :=
  List.replicate (countLeadingZeroBytes data) '1' ++
    ((digitsLE 58 (bytesToNat data)).reverse.map b58Char)

/-- Count of leading `'1'` characters of a Base58 string (used by the standard
Base58 decoder, modelled from the spec's description of Base58Check). -/
def countLeadingOneChars : List Char → Nat
  | [] => 0
  | c :: rest => if c = '1' then countLeadingOneChars rest + 1 else 0

/-- Index of a character in the Base58 alphabet (standard Base58 digit
value). -/
def b58CharIndexAux : List Char → Char → Option Nat
  | [], _ => none
  | a :: rest, c => if a = c then some 0 else (b58CharIndexAux rest c).map (· + 1)

/-- The Base58 digit value of one character, `none` for characters outside the
alphabet. -/
def b58CharIndex (c : Char) : Option Nat :=
  b58CharIndexAux base58AlphabetChars c

/-- Decode a run of Base58 digit characters to their digit values; fails on
the first character outside the alphabet. -/
def decodeB58Digits : List Char → Option (List Nat)
  | [] => some []
  | c :: rest =>
      match b58CharIndex c, decodeB58Digits rest with
      | some d, some ds => some (d :: ds)
      | _, _ => none

/-- Modelled from the spec: standard Base58 decoding (the spec's §8 round-trip
property speaks of "decoding a produced address or WIF"; the repository itself
contains no decoder).  Leading `'1'` characters become leading zero bytes; the
remaining characters are read as big-endian base-58 digits and the resulting
number is written out as its minimal big-endian base-256 expansion. -/
def b58decode (s : List Char) : Option (List Nat) :=
  let ones := countLeadingOneChars s
  let rest := s.drop ones
  match decodeB58Digits rest with
  | none => none
  | some ds =>
      let num := ds.foldl (fun acc d => acc * 58 + d) 0
      some (List.replicate ones 0 ++ (digitsLE 256 num).reverse)

/-- Lowercase hexadecimal digit characters, as produced by Python's
`bytes.hex()`. -/
def hexDigitChar (d : Nat) : Char :=
  "0123456789abcdef".toList.getD d '0'

/-- The two lowercase hexadecimal characters of one byte, as produced by
Python's `bytes.hex()` for a single byte. -/
def byteHexChars (b : Nat) : List Char :=
  [hexDigitChar (b / 16), hexDigitChar (b % 16)]

/-- Python `data.hex()`: lowercase hexadecimal rendering of a byte string
(two characters per byte). -/
def bytesHex (data : List Nat) : List Char :=
  data.flatMap byteHexChars

/-- The `_base58_cache` dictionary of the optimized codecs, keyed by
`data.hex()`: an association list whose most recent entry wins. -/
abbrev B58Cache : Type := List (List Char × List Char)

/-- Dictionary lookup in the Base58 cache (`cache_key in self._base58_cache`
followed by `self._base58_cache[cache_key]`). -/
def cacheLookup : B58Cache → List Char → Option (List Char)
  | [], _ => none
  | (k, v) :: rest, key => if k = key then some v else cacheLookup rest key

/-- `OptimizedTronNetwork._ultra_fast_base58` of `src/networks/optimized.py`
including its cache: for data of at most 8 bytes the result is looked up by
`data.hex()` and, on a miss, stored (with the whole cache cleared once it
exceeds 1000 entries).  Returns the encoded string and the new cache state. -/
def ultraFastBase58 (cache : B58Cache) (data : List Nat) : List Char × B58Cache :=
  let key := bytesHex data
  if data.length ≤ 8 then
    match cacheLookup cache key with
    | some v => (v, cache)
    | none =>
        let result := ultraFastBase58Pure data
        let cache1 : B58Cache := (key, result) :: cache
        (result, if 1000 < cache1.length then [] else cache1)
  else (ultraFastBase58Pure data, cache)

/-- `OptimizedBitcoinNetwork._fast_base58_encode` of
`src/networks/optimized.py` including its cache: the key is `data.hex()` for
data of at most 8 bytes (the `data[:8].hex()` key computed for longer data is
never consulted, because the cached return is guarded by `len(data) <= 8`, and
never stored); the store clears the cache once it exceeds 500 entries. -/
def fastBase58Encode (cache : B58Cache) (data : List Nat) : List Char × B58Cache :=
  let result := fastBase58EncodePure data
  if data.length ≤ 8 then
    match cacheLookup cache (bytesHex data) with
    | some v => (v, cache)
    | none =>
        let cache1 : B58Cache := (bytesHex data, result) :: cache
        (result, if 500 < cache1.length then [] else cache1)
  else (result, cache)

/-! ### Keccak-256 dispatch (C2)

The digest primitives themselves (`Crypto.Hash.keccak`, `hashlib.sha3_256`,
`hashlib.sha256`) are external libraries; what the repository's helpers decide
is *which* primitive computes the digest, as a function of which imports
succeed.  `HashEnv` records the availability of the two optional backends and
the helpers return the algorithm that would produce the returned digest, or an
error where the Python code would raise. -/

/-- Availability of the optional hashing backends: `pycryptodome`
(`Crypto.Hash.keccak`) and `hashlib.sha3_256`. -/
structure HashEnv where
  pycryptodomeAvailable : Bool
  hashlibSha3Available : Bool
deriving DecidableEq

/-- The hash primitive that ends up computing a digest. -/
inductive DigestAlgo where
  | keccak256
  | sha3of256
  | sha256
deriving DecidableEq

/-- `TronNetwork._keccak256` of `src/networks/tron.py`: try
`Crypto.Hash.keccak`; on `ImportError` fall back to `hashlib.sha3_256`
(raising only if that attribute is itself unavailable). -/
def tronKeccak256 (env : HashEnv) : Except String DigestAlgo :=
  if env.pycryptodomeAvailable then .ok .keccak256
  else if env.hashlibSha3Available then .ok .sha3of256
  else .error "AttributeError"

/-- `OptimizedTronNetwork._fast_keccak256` of `src/networks/optimized.py`: try
`Crypto.Hash.keccak`; on `ImportError` try `hashlib.sha3_256`; on any failure
fall back to `hashlib.sha256`.  The bare `except` means this helper never
raises. -/
def optimizedTronFastKeccak256 (env : HashEnv) : DigestAlgo :=
  if env.pycryptodomeAvailable then .keccak256
  else if env.hashlibSha3Available then .sha3of256
  else .sha256

/-- `OptimizedEthereumNetwork._fast_keccak256` of `src/networks/optimized.py`:
identical fallback chain to the Tron variant. -/
def optimizedEthereumFastKeccak256 (env : HashEnv) : DigestAlgo :=
  if env.pycryptodomeAvailable then .keccak256
  else if env.hashlibSha3Available then .sha3of256
  else .sha256

/-! ### Private-key sampling (C1) -/

/-- The secp256k1 group order constant `secp256k1_order` appearing in
`src/networks/bitcoin_like.py`, `src/networks/tron.py` and
`src/networks/optimized.py`. -/
def secp256k1Order : Nat :=
  0xFFFFFFFFFFFFFFFFFFFFFFFFFFFFFFFEBAAEDCE6AF48A03BBFD25E8CD0364141

/-- The resampling loop of `BitcoinLikeNetwork.generate` and
`TronNetwork.generate` (`while int.from_bytes(private_key_bytes, 'big') >=
secp256k1_order: private_key_bytes = os.urandom(32)`), modelled over an
explicit stream of samples: the first sample whose big-endian value is below
the curve order is used. -/
def bitcoinLikeSampleLoop : List (List Nat) → Option (List Nat)
  | [] => none
  | k :: rest =>
      if bytesToNat k < secp256k1Order then some k else bitcoinLikeSampleLoop rest

/-- The range adjustment of `OptimizedBitcoinNetwork.generate` in
`src/networks/optimized.py`: `if private_key_bytes[0] == 0: private_key_bytes
= b'\x01' + private_key_bytes[1:]` — only the first byte is inspected, the
curve order is never consulted. -/
def optimizedBitcoinKeyFix : List Nat → List Nat
  | [] => []
  | b :: rest => if b = 0 then 1 :: rest else b :: rest

/-- The range adjustment of `OptimizedTronNetwork.generate` in
`src/networks/optimized.py`: a value at or above the curve order is folded
back as `key_int % (secp256k1_order - 1) + 1`. -/
def optimizedTronKeyFix (keyInt : Nat) : Nat :=
  if secp256k1Order ≤ keyInt then keyInt % (secp256k1Order - 1) + 1 else keyInt

/-! ### Hex/EVM address derivation (C4)

The elliptic-curve serialization (`secp256k1.PrivateKey(...).pubkey.serialize
(compressed=False)`), `hashlib.sha256` and the three digest primitives behind
`_fast_keccak256` are external libraries, so they enter the model as function
parameters; which bytes are digested and which primitive digests them is the
repository's own control flow and is embedded in full: the secp256k1 path
with its bare `except` falling back to `_fallback_pubkey`, and the
`_fast_keccak256` dispatch of C2 selecting the digest algorithm. -/

/-- Python's `data[-20:]`: the last 20 elements (the whole list when it is
shorter). -/
def takeLast20 (l : List Nat) : List Nat :=
  l.drop (l.length - 20)

/-- Runtime environment of the optimized EVM codec: whether the `secp256k1`
module imports successfully (`self._secp256k1_available`), whether
`PrivateKey(...)/serialize` completes without raising (the source guards the
call with a bare `except`), and which digest backends are importable. -/
structure EvmCodecEnv where
  secp256k1Available : Bool
  secp256k1Succeeds : Bool
  hash : HashEnv

/-- `OptimizedEthereumNetwork._fallback_pubkey` of `src/networks/optimized.py`
(lines 312-316): `sha256(priv) ‖ sha256(sha256(priv))` — pseudo public-key
bytes not derived from the ECDSA public key at all. -/
def ethereumFallbackPubkey (sha256 : List Nat → List Nat)
    (privateKeyBytes : List Nat) : List Nat :=
  sha256 privateKeyBytes ++ sha256 (sha256 privateKeyBytes)

/-- The bytes `_optimized_private_key_to_address` feeds to `_fast_keccak256`
(optimized.py:292-301): the format-byte-stripped uncompressed serialization
when secp256k1 is available and does not raise, otherwise the
`_fallback_pubkey` bytes. -/
def optimizedEthereumPubkey (env : EvmCodecEnv)
    (serialize sha256 : List Nat → List Nat) (privateKeyBytes : List Nat) : List Nat :=
  if env.secp256k1Available ∧ env.secp256k1Succeeds
  then (serialize privateKeyBytes).drop 1
  else ethereumFallbackPubkey sha256 privateKeyBytes

/-- `OptimizedEthereumNetwork._optimized_private_key_to_address` of
`src/networks/optimized.py` (lines 289-310) in full: select the public-key
bytes (secp256k1 path or `_fallback_pubkey`), digest them with whichever
primitive `_fast_keccak256` resolves to in the current environment (`digest`
is the table of the three external digest primitives, indexed by the
algorithm the C2 dispatch selects), keep the last 20 bytes and render
`"0x" + hex`. -/
def optimizedEthereumAddress (env : EvmCodecEnv)
    (serialize : List Nat → List Nat) (digest : DigestAlgo → List Nat → List Nat)
    (sha256 : List Nat → List Nat) (privateKeyBytes : List Nat) : List Char :=
  let pubkey := optimizedEthereumPubkey env serialize sha256 privateKeyBytes
  let keccakHash := digest (optimizedEthereumFastKeccak256 env.hash) pubkey
  let addressBytes := takeLast20 keccakHash
  '0' :: 'x' :: bytesHex addressBytes

/-- Modelled from the spec: `OptimizedBSCNetwork`, `OptimizedPolygonNetwork`,
`OptimizedArbitrumNetwork` and `OptimizedOptimismNetwork` are imported from
`networks.optimized` by both entry points but their definitions are not under
`src/`; the spec (§4.1) says the hex/EVM family is "one primary chain and
several chains sharing identical derivation rules", so they share the
Ethereum derivation verbatim. -/
def optimizedEvmChainAddress (env : EvmCodecEnv)
    (serialize : List Nat → List Nat) (digest : DigestAlgo → List Nat → List Nat)
    (sha256 : List Nat → List Nat) (privateKeyBytes : List Nat) : List Char :=
  optimizedEthereumAddress env serialize digest sha256 privateKeyBytes

/-- Modelled from the spec: `EthereumNetwork.generate`
(`src/networks/ethereum.py`) and the four codecs of
`src/networks/evm_chains.py` delegate address derivation wholly to the
external `eth_account` library; the spec (§3, §4.1) describes the hex/EVM
derivation as uncompressed public key with the format byte stripped →
Keccak-256 → last 20 bytes → `"0x"` + lowercase hex. -/
def ethAccountAddress (serialize keccak : List Nat → List Nat)
    (privateKeyBytes : List Nat) : List Char :=
  '0' :: 'x' :: bytesHex (takeLast20 (keccak ((serialize privateKeyBytes).drop 1)))

/-- A concrete digest-primitive table that distinguishes the three algorithms,
used to exercise the EVM codec paths on explicit inputs. -/
def c4DigestTable : DigestAlgo → List Nat → List Nat
  | DigestAlgo.keccak256, data => data
  | DigestAlgo.sha3of256, _ => List.replicate 32 9
  | DigestAlgo.sha256, _ => List.replicate 32 7

/-- A concrete 65-byte elliptic-curve serializer used to exercise the EVM
codec paths on explicit inputs. -/
def c4Serialize : List Nat → List Nat := fun _ => List.replicate 65 1

/-- A concrete 32-byte SHA-256 stand-in used to exercise the EVM codec paths
on explicit inputs. -/
def c4Sha256 : List Nat → List Nat := fun _ => List.replicate 32 2

/-! ### Pattern matcher (C5, C10) -/

/-- The EVM currency list of `check_address_pattern` in
`src/core/pattern_matcher.py`. -/
def evmCurrencies : List String := ["ETH", "BSC", "MATIC", "ARB", "OP"]

/-- Python `str.lower()` restricted to the ASCII range in which addresses and
patterns live: uppercase ASCII letters are shifted to lowercase, every other
character is unchanged. -/
def pyLowerChar (c : Char) : Char :=
  if 'A' ≤ c ∧ c ≤ 'Z' then Char.ofNat (c.toNat + 32) else c

/-- Python `s.lower()` on an address or pattern string. -/
def pyLower (s : List Char) : List Char :=
  s.map pyLowerChar

/-- `check_address_pattern` of `src/core/pattern_matcher.py`: for EVM
currencies a leading `"0x"` is stripped; with `ignore_case` both operands are
lowercased; `"prefix"` tests `startswith`, `"suffix"` tests `endswith`, and
any other pattern type raises `ValueError`. -/
def check_address_pattern (address : List Char) (currency : String)
    (pattern : List Char) (patternType : String) (ignoreCase : Bool) :
    Except String Bool :=
  let searchAddress :=
    if currency ∈ evmCurrencies ∧ ['0', 'x'].isPrefixOf address
    then address.drop 2 else address
  let searchAddress1 := if ignoreCase then pyLower searchAddress else searchAddress
  let checkPattern := if ignoreCase then pyLower pattern else pattern
  if patternType = "prefix" then .ok (checkPattern.isPrefixOf searchAddress1)
  else if patternType = "suffix" then .ok (checkPattern.isSuffixOf searchAddress1)
  else .error "Неподдерживаемый тип паттерна"

/-! ### Difficulty estimator (C6) -/

/-- The `alphabets` dictionary of `estimate_pattern_difficulty` in
`src/core/pattern_matcher.py`, with its `.get(currency, 58)` default. -/
def alphabetSizeOf (currency : String) : Nat :=
  (List.lookup currency
    [("BTC", 58), ("LTC", 58), ("DOGE", 58), ("ETH", 16), ("TRX", 58),
     ("BSC", 16), ("MATIC", 16), ("ARB", 16), ("OP", 16)]).getD 58

/-- `estimate_pattern_difficulty` of `src/core/pattern_matcher.py`:
`probability = alphabet_size ** len(pattern)`, then a cascade of probability
thresholds chooses a difficulty level and a baseline throughput dividing the
probability into a projected time (the Python float division is modelled over
`ℚ`).  The `pattern_type` argument is accepted but unused, as in the source. -/
def estimate_pattern_difficulty (pattern : List Char) (_patternType : String)
    (currency : String) : String × Nat × ℚ :=
  let alphabetSize := alphabetSizeOf currency
  let probability := alphabetSize ^ pattern.length
  if probability ≤ 100 then ("Очень легко", probability, (probability : ℚ) / 200000)
  else if probability ≤ 10000 then ("Легко", probability, (probability : ℚ) / 150000)
  else if probability ≤ 1000000 then ("Средне", probability, (probability : ℚ) / 100000)
  else if probability ≤ 100000000 then ("Сложно", probability, (probability : ℚ) / 80000)
  else if probability ≤ 10000000000 then
    ("Очень сложно", probability, (probability : ℚ) / 50000)
  else ("Экстремально сложно", probability, (probability : ℚ) / 30000)

/-- The difficulty tier index determined by the claim's thresholds `10^2`,
`10^4`, `10^6`, `10^8`, `10^10` (claim-side definition for C6). -/
def difficultyTier (probability : Nat) : Nat :=
  if probability ≤ 10 ^ 2 then 0
  else if probability ≤ 10 ^ 4 then 1
  else if probability ≤ 10 ^ 6 then 2
  else if probability ≤ 10 ^ 8 then 3
  else if probability ≤ 10 ^ 10 then 4
  else 5

/-- The baseline throughput (addresses per second) of each difficulty tier, as
hard-coded in `estimate_pattern_difficulty`. -/
def baselineThroughput : Nat → ℚ
  | 0 => 200000
  | 1 => 150000
  | 2 => 100000
  | 3 => 80000
  | 4 => 50000
  | _ => 30000

/-! ### Engine result collection and persistence (C3) -/

/-- The `OptimizedKey` dataclass of `src/max_core_generator.py` (`found_time`
is a wall-clock float, modelled over `ℚ`). -/
structure OptimizedKey where
  address : List Char
  private_key : List Char
  currency : String
  found_time : ℚ
  worker_id : Nat

/-- The inner result-collection loop of
`MaxCoreVanityGenerator._monitor_progress` in `src/max_core_generator.py`:
repeatedly `get_nowait` a result from the queue and append it to
`found_addresses`; once `target_count > 0` and the collected count reaches
`target_count`, set the stop event and break.  Returns the collected list and
whatever is still queued. -/
def monitorCollectLoop (targetCount : Nat) :
    List OptimizedKey → List OptimizedKey → List OptimizedKey × List OptimizedKey
  | found, [] => (found, [])
  | found, r :: rest =>
      let found1 := found ++ [r]
      if 0 < targetCount ∧ targetCount ≤ found1.length then (found1, rest)
      else monitorCollectLoop targetCount found1 rest

/-- `MaxCoreVanityGenerator._collect_final_results` of
`src/max_core_generator.py`: drain the result queue completely, appending
every remaining record to `found_addresses` with no ceiling check. -/
def collectFinalResults (found queue : List OptimizedKey) : List OptimizedKey :=
  found ++ queue

/-- `MaxCoreVanityGenerator.save_results` of `src/max_core_generator.py`:
returns the rows written to the CSV file — every record of
`found_addresses`, or no file at all when there are none. -/
def saveResults (found : List OptimizedKey) : Option (List OptimizedKey) :=
  if found.isEmpty then none else some found

/-- The records persisted by a bounded run that reaches its ceiling and stops:
the monitor loop collects from the queue until the ceiling is hit, `stop()`
then drains the remainder via `_collect_final_results`, and `save_results`
writes everything collected. -/
def persistedRecords (targetCount : Nat) (found queue : List OptimizedKey) :
    List OptimizedKey :=
  let collected := monitorCollectLoop targetCount found queue
  collectFinalResults collected.1 collected.2

/-! ### Worker-count sizing (C7) -/

/-- The `complexity_multiplier` dictionary of
`MaxCoreVanityGenerator.calculate_optimal_workers` in
`src/max_core_generator.py` (float literals modelled over `ℚ`). -/
def complexityMultiplier (level : String) : ℚ :=
  (List.lookup level
    [("Очень легко", 1), ("Легко", 1), ("Средне", 9 / 10), ("Сложно", 4 / 5),
     ("Очень сложно", 7 / 10), ("Экстремально", 3 / 5)]).getD 1

/-- `MaxCoreVanityGenerator.calculate_optimal_workers` of
`src/max_core_generator.py`: `max(1, int(cpu_count * multiplier))` (Python's
`int()` truncation equals `⌊·⌋` on these non-negative products). -/
def calculate_optimal_workers (cpuCount : Nat) (complexityLevel : String) : Int :=
  max 1 ⌊(cpuCount : ℚ) * complexityMultiplier complexityLevel⌋

/-- The worker-count selection of `MaxCoreVanityGenerator.start_generation` in
`src/max_core_generator.py` (lines 290-294): an absent override is sized
automatically; an explicit override `w` becomes `min(w, cpu_count * 2)` — no
lower bound is applied on this path. -/
def effectiveWorkerCount (cpuCount : Nat) (workerCount : Option Int)
    (difficulty : String) : Int :=
  match workerCount with
  | none => calculate_optimal_workers cpuCount difficulty
  | some w => min w (2 * (cpuCount : Int))

/-! ### Base58Check construction (C8)

`hashlib.sha256` and `hashlib.new('ripemd160')` are external primitives and
enter as function parameters; the repository's code assembles
`payload ‖ first-4-bytes-of-SHA-256(SHA-256(payload))` and Base58-encodes it
(via the external `base58` library, modelled by `b58encodeSpec`). -/

/-- `BitcoinLikeNetwork._private_key_to_wif` of
`src/networks/bitcoin_like.py`: `extended = version ‖ key ‖ 0x01`, `checksum =
sha256(sha256(extended))[:4]`, `base58encode(extended ‖ checksum)`. -/
def private_key_to_wif (sha256 : List Nat → List Nat) (wifVersion : Nat)
    (privateKeyBytes : List Nat) : List Char :=
  let extended := wifVersion :: (privateKeyBytes ++ [1])
  let checksum := (sha256 (sha256 extended)).take 4
  b58encodeSpec (extended ++ checksum)

/-- `BitcoinLikeNetwork._private_key_to_address` of
`src/networks/bitcoin_like.py` (and the same assembly in
`OptimizedBitcoinNetwork._optimized_private_key_to_address`):
`versioned = version ‖ ripemd160(sha256(pubkey))`, `checksum =
sha256(sha256(versioned))[:4]`, `base58encode(versioned ‖ checksum)`. -/
def private_key_to_p2pkh_address (sha256 ripemd160 : List Nat → List Nat)
    (p2pkhVersion : Nat) (pubkey : List Nat) : List Char :=
  let versioned := p2pkhVersion :: ripemd160 (sha256 pubkey)
  let checksum := (sha256 (sha256 versioned)).take 4
  b58encodeSpec (versioned ++ checksum)

/-- The spec's §8 round-trip check on a produced Base58Check string: decode
it, split off the trailing 4 bytes, recompute the double-SHA-256 checksum of
the leading payload and compare. -/
def b58checkVerify (sha256 : List Nat → List Nat) (s : List Char) : Bool :=
  match b58decode s with
  | none => false
  | some full =>
      let payload := full.take (full.length - 4)
      let checksum := full.drop (full.length - 4)
      decide (checksum = (sha256 (sha256 payload)).take 4)

/-- Coherence of a Base58 cache state: every entry was stored for some byte
string, keyed by its hex rendering and holding its pure Base58 encoding.  The
empty cache is trivially coherent, and the cached encoders preserve
coherence. -/
def cacheCoherent (cache : B58Cache) : Prop :=
  ∀ p ∈ cache, ∃ d : List Nat,
    (∀ b ∈ d, b < 256) ∧ p.1 = bytesHex d ∧ p.2 = b58encodeSpec d

/-- The claim-side description of the pattern matcher (C5): strip a leading
`"0x"` for hex/EVM currencies, casefold both operands when `ignore_case`,
then test `startsWith` for `"prefix"` and `endsWith` for `"suffix"`. -/
def matchSpecResult (address : List Char) (currency : String)
    (pattern : List Char) (patternType : String) (ignoreCase : Bool) : Bool :=
  let strippedAddress :=
    if currency ∈ evmCurrencies ∧ ['0', 'x'].isPrefixOf address
    then address.drop 2 else address
  let foldedAddress := if ignoreCase then pyLower strippedAddress else strippedAddress
  let foldedPattern := if ignoreCase then pyLower pattern else pattern
  if patternType = "suffix" then foldedPattern.isSuffixOf foldedAddress
  else foldedPattern.isPrefixOf foldedAddress


/-- A concrete three-element result queue used to exercise the collection
pipeline at target count 1. -/
def c3Queue : List OptimizedKey :=
  [⟨['a'], ['k'], "BTC", 0, 0⟩, ⟨['b'], ['l'], "BTC", 0, 1⟩, ⟨['c'], ['m'], "BTC", 0, 2⟩]

/-! ## Helper lemmas -/

/-- Horner evaluation of a big-endian digit list equals `Nat.ofDigits` of its
little-endian reversal, shifted by the accumulator. -/
theorem foldl_mul_add (base : Nat) (l : List Nat) :
    ∀ a : Nat, l.foldl (fun acc d => acc * base + d) a
      = a * base ^ l.length + Nat.ofDigits base l.reverse := by
  induction l with
  | nil => intro a; simp [Nat.ofDigits]
  | cons d t ih =>
      intro a
      simp only [List.foldl_cons, List.reverse_cons, List.length_cons]
      rw [ih (a * base + d), Nat.ofDigits_append]
      simp [Nat.ofDigits_singleton, pow_succ]
      ring

/-- `bytesToNat` is `Nat.ofDigits` base 256 of the reversed byte list. -/
theorem bytesToNat_eq_ofDigits (l : List Nat) :
    bytesToNat l = Nat.ofDigits 256 l.reverse := by
  have h := foldl_mul_add 256 l 0
  simpa [bytesToNat] using h

/-- With enough fuel, `digitsLEAux` computes `Nat.digits`. -/
theorem digitsLEAux_eq (base : Nat) (hbase : 2 ≤ base) :
    ∀ fuel n, n ≤ fuel → digitsLEAux base fuel n = Nat.digits base n := by
  intro fuel
  induction fuel with
  | zero =>
      intro n hn
      interval_cases n
      simp [digitsLEAux]
  | succ f ih =>
      intro n hn
      by_cases h0 : n = 0
      · simp [digitsLEAux, h0]
      · have hb1 : 1 < base := hbase
        have hdiv : n / base ≤ f := by
          have : n / base < n := Nat.div_lt_self (Nat.pos_of_ne_zero h0) hb1
          omega
        rw [digitsLEAux, if_neg h0, ih (n / base) hdiv,
          Nat.digits_def' hb1 (Nat.pos_of_ne_zero h0)]

/-- `digitsLE` computes `Nat.digits` for any base at least 2. -/
theorem digitsLE_eq (base n : Nat) (hbase : 2 ≤ base) :
    digitsLE base n = Nat.digits base n :=
  digitsLEAux_eq base hbase n n le_rfl

/-- With enough fuel, the Base58 emission loop produces the mapped big-endian
digits of its number in front of the accumulator. -/
theorem b58LoopAux_eq :
    ∀ fuel num acc, num ≤ fuel →
      b58LoopAux fuel num acc = (Nat.digits 58 num).reverse.map b58Char ++ acc := by
  intro fuel
  induction fuel with
  | zero =>
      intro num acc hn
      interval_cases num
      simp [b58LoopAux]
  | succ f ih =>
      intro num acc hn
      by_cases h0 : num = 0
      · simp [b58LoopAux, h0]
      · have hdiv : num / 58 ≤ f := by
          have : num / 58 < num := Nat.div_lt_self (Nat.pos_of_ne_zero h0) (by norm_num)
          omega
        rw [b58LoopAux, if_neg h0, ih (num / 58) _ hdiv,
          Nat.digits_def' (by norm_num : (1:ℕ) < 58) (Nat.pos_of_ne_zero h0)]
        simp

/-- The Base58 emission loop with empty accumulator produces exactly the
mapped big-endian digit characters. -/
theorem b58Loop_eq (num : Nat) (acc : List Char) :
    b58Loop num acc = (Nat.digits 58 num).reverse.map b58Char ++ acc :=
  b58LoopAux_eq num num acc le_rfl

/-- A Horner fold in a positive base is zero only when the accumulator and
every digit are zero. -/
theorem foldl_mul_add_eq_zero (base : Nat) (hbase : 0 < base) :
    ∀ (l : List Nat) (a : Nat),
      l.foldl (fun acc d => acc * base + d) a = 0 → a = 0 ∧ ∀ b ∈ l, b = 0 := by
  intro l
  induction l with
  | nil => intro a h; simpa using h
  | cons d t ih =>
      intro a h
      simp only [List.foldl_cons] at h
      obtain ⟨had, ht⟩ := ih (a * base + d) h
      obtain ⟨hab, hd⟩ := Nat.add_eq_zero.mp had
      refine ⟨?_, ?_⟩
      · rcases Nat.mul_eq_zero.mp hab with h' | h'
        · exact h'
        · omega
      · intro b hb
        rcases List.mem_cons.mp hb with hb | hb
        · omega
        · exact ht b hb

/-- `bytesToNat` vanishes exactly on all-zero byte strings (the base 256 is
positive, so a zero is impossible otherwise). -/
theorem bytesToNat_eq_zero_iff (l : List Nat) :
    bytesToNat l = 0 ↔ ∀ b ∈ l, b = 0 := by
  constructor
  · intro h
    exact (foldl_mul_add_eq_zero 256 (by norm_num) l 0 h).2
  · intro h
    induction l with
    | nil => rfl
    | cons d t ih =>
        have hd : d = 0 := h d (by simp)
        have ht : ∀ b ∈ t, b = 0 := fun b hb => h b (by simp [hb])
        have := ih ht
        simp only [bytesToNat, List.foldl_cons] at this ⊢
        simpa [hd] using this

/-- The leading-zero count never exceeds the length. -/
theorem countLeadingZeroBytes_le_length (l : List Nat) :
    countLeadingZeroBytes l ≤ l.length := by
  induction l with
  | nil => simp [countLeadingZeroBytes]
  | cons b t ih =>
      by_cases hb : b = 0
      · simp only [countLeadingZeroBytes, if_pos hb, List.length_cons]
        omega
      · simp [countLeadingZeroBytes, hb]

/-- Every byte string splits as its leading zeros followed by its tail. -/
theorem countLeadingZeroBytes_split (l : List Nat) :
    l = List.replicate (countLeadingZeroBytes l) 0 ++ l.drop (countLeadingZeroBytes l) := by
  induction l with
  | nil => rfl
  | cons b t ih =>
      by_cases hb : b = 0
      · simp only [countLeadingZeroBytes, if_pos hb, List.replicate_succ,
          List.cons_append, List.drop_succ_cons]
        rw [hb]
        exact congrArg (0 :: ·) ih
      · simp [countLeadingZeroBytes, hb]

/-- The byte right after the leading zeros is nonzero. -/
theorem countLeadingZeroBytes_head (l : List Nat) (b : Nat) (rest : List Nat)
    (h : l.drop (countLeadingZeroBytes l) = b :: rest) : b ≠ 0 := by
  induction l generalizing b rest with
  | nil => simp at h
  | cons x t ih =>
      by_cases hx : x = 0
      · simp only [countLeadingZeroBytes, if_pos hx, List.drop_succ_cons] at h
        exact ih b rest h
      · simp only [countLeadingZeroBytes, if_neg hx, List.drop_zero] at h
        obtain ⟨rfl, -⟩ := List.cons.inj h
        exact hx

/-- An all-zero byte string has leading-zero count equal to its length. -/
theorem countLeadingZeroBytes_of_all_zero (l : List Nat) (h : ∀ b ∈ l, b = 0) :
    countLeadingZeroBytes l = l.length := by
  induction l with
  | nil => rfl
  | cons b t ih =>
      have hb : b = 0 := h b (by simp)
      simp [countLeadingZeroBytes, hb, ih fun x hx => h x (by simp [hx])]

/-- Prepending zero bytes does not change the big-endian value. -/
theorem bytesToNat_replicate_zero_append (k : Nat) (rest : List Nat) :
    bytesToNat (List.replicate k 0 ++ rest) = bytesToNat rest := by
  have h0 : ∀ n, (List.replicate n 0).foldl (fun acc b => acc * 256 + b) 0 = 0 := by
    intro n
    induction n with
    | zero => rfl
    | succ m ih => simpa [List.replicate_succ, List.foldl_cons] using ih
  simp [bytesToNat, List.foldl_append, h0]

/-- Leading-one counting passes over a replicated `'1'` block. -/
theorem countLeadingOneChars_replicate_append (k : Nat) (s : List Char) :
    countLeadingOneChars (List.replicate k '1' ++ s) = k + countLeadingOneChars s := by
  induction k with
  | zero => simp
  | succ m ih =>
      simp [List.replicate_succ, countLeadingOneChars, ih]
      omega

/-- A string whose head is not `'1'` has no leading ones. -/
theorem countLeadingOneChars_of_head_ne (c : Char) (t : List Char) (hc : c ≠ '1') :
    countLeadingOneChars (c :: t) = 0 := by
  simp [countLeadingOneChars, hc]

/-- Every Base58 digit's character decodes back to the digit. -/
theorem b58CharIndex_b58Char : ∀ d, d < 58 → b58CharIndex (b58Char d) = some d := by
  decide

/-- Base58 digit characters of nonzero digits are not `'1'`. -/
theorem b58Char_ne_one : ∀ d, d < 58 → d ≠ 0 → b58Char d ≠ '1' := by
  decide

/-- Decoding the character rendering of an in-range digit list recovers the
digits. -/
theorem decodeB58Digits_map (L : List Nat) (h : ∀ d ∈ L, d < 58) :
    decodeB58Digits (L.map b58Char) = some L := by
  induction L with
  | nil => rfl
  | cons d t ih =>
      have hd : d < 58 := h d (by simp)
      have ht : ∀ x ∈ t, x < 58 := fun x hx => h x (by simp [hx])
      simp only [List.map_cons, decodeB58Digits, b58CharIndex_b58Char d hd, ih ht]

/-- Folding the reversed base-58 digits of a number back together recovers the
number. -/
theorem foldl_reverse_digits (n : Nat) :
    (Nat.digits 58 n).reverse.foldl (fun acc d => acc * 58 + d) 0 = n := by
  rw [foldl_mul_add 58 (Nat.digits 58 n).reverse 0]
  simp [Nat.ofDigits_digits]

/-- Base58 round-trip: decoding the (spec/library) encoding of a byte string
recovers the byte string exactly. -/
theorem b58decode_b58encodeSpec (data : List Nat) (h : ∀ b ∈ data, b < 256) :
    b58decode (b58encodeSpec data) = some data := by
  by_cases hnum : bytesToNat data = 0
  · have hall : ∀ b ∈ data, b = 0 := (bytesToNat_eq_zero_iff data).mp hnum
    have hclz : countLeadingZeroBytes data = data.length :=
      countLeadingZeroBytes_of_all_zero data hall
    have hdata : data = List.replicate data.length 0 :=
      List.eq_replicate_of_mem hall
    have henc : b58encodeSpec data = List.replicate data.length '1' := by
      rw [b58encodeSpec, hnum, hclz]
      simp [digitsLE, digitsLEAux]
    rw [henc]
    have hones : countLeadingOneChars (List.replicate data.length '1') = data.length := by
      simpa [countLeadingOneChars] using
        countLeadingOneChars_replicate_append data.length []
    have hdrop0 : (List.replicate data.length '1').drop data.length = [] := by simp
    simp only [b58decode, hones, hdrop0, decodeB58Digits, List.foldl_nil]
    simp [digitsLE, digitsLEAux, hdata.symm]
  · set lz := countLeadingZeroBytes data with hlz
    set num := bytesToNat data with hnumdef
    set digits58 := Nat.digits 58 num with hd58
    have hd58ne : digits58 ≠ [] := Nat.digits_ne_nil_iff_ne_zero.mpr hnum
    have hrevne : digits58.reverse ≠ [] := by
      simpa using hd58ne
    obtain ⟨g, tl, hrev⟩ := List.exists_cons_of_ne_nil hrevne
    have hg58 : g < 58 := by
      have hmem : g ∈ digits58 := by
        rw [← List.mem_reverse, hrev]
        simp
      exact Nat.digits_lt_base (by norm_num) hmem
    have hgne : g ≠ 0 := by
      have h1 : digits58.reverse.head? = some g := by rw [hrev]; rfl
      have h2 : digits58.getLast? = some g := by
        rw [← List.head?_reverse, h1]
      have h3 : digits58.getLast? = some (digits58.getLast hd58ne) :=
        List.getLast?_eq_getLast _ hd58ne
      have h4 : digits58.getLast hd58ne ≠ 0 :=
        Nat.getLast_digit_ne_zero 58 hnum
      rw [h2] at h3
      exact (Option.some.inj h3) ▸ h4
    have henc : b58encodeSpec data
        = List.replicate lz '1' ++ digits58.reverse.map b58Char := by
      rw [b58encodeSpec, digitsLE_eq 58 _ (by norm_num)]
    have hmappedhead : digits58.reverse.map b58Char = b58Char g :: tl.map b58Char := by
      rw [hrev, List.map_cons]
    have hones : countLeadingOneChars (List.replicate lz '1' ++ digits58.reverse.map b58Char) = lz := by
      rw [countLeadingOneChars_replicate_append, hmappedhead,
        countLeadingOneChars_of_head_ne _ _ (b58Char_ne_one g hg58 hgne)]
      omega
    have hdrop : (List.replicate lz '1' ++ digits58.reverse.map b58Char).drop lz
        = digits58.reverse.map b58Char := by
      simp
    have hdigbound : ∀ d ∈ digits58.reverse, d < 58 := fun d hd =>
      Nat.digits_lt_base (by norm_num) (List.mem_reverse.mp hd)
    have hdec : decodeB58Digits (digits58.reverse.map b58Char) = some digits58.reverse :=
      decodeB58Digits_map _ hdigbound
    have hfold : digits58.reverse.foldl (fun acc d => acc * 58 + d) 0 = num :=
      foldl_reverse_digits num
    set rest := data.drop lz with hrestdef
    have hsplit : data = List.replicate lz 0 ++ rest := countLeadingZeroBytes_split data
    have hnumrest : num = bytesToNat rest := by
      conv_lhs => rw [hnumdef, hsplit]
      rw [bytesToNat_replicate_zero_append]
    have hrestne : rest ≠ [] := by
      intro he
      apply hnum
      rw [hnumdef] at hnumrest ⊢
      rw [hnumrest, he]
      rfl
    obtain ⟨b0, rtl, hrest⟩ := List.exists_cons_of_ne_nil hrestne
    have hb0 : b0 ≠ 0 := countLeadingZeroBytes_head data b0 rtl (by rw [← hrestdef, hrest])
    have hrestbound : ∀ x ∈ rest.reverse, x < 256 := by
      intro x hx
      apply h
      rw [hsplit]
      exact List.mem_append_right _ (List.mem_reverse.mp hx)
    have hgetlast : ∀ hne : rest.reverse ≠ [], rest.reverse.getLast hne ≠ 0 := by
      intro hne
      have h1 : rest.reverse.getLast? = some b0 := by
        rw [List.getLast?_reverse, hrest]
        rfl
      have h2 : rest.reverse.getLast? = some (rest.reverse.getLast hne) :=
        List.getLast?_eq_getLast _ hne
      rw [h1] at h2
      exact (Option.some.inj h2) ▸ hb0
    have hdigits256 : Nat.digits 256 num = rest.reverse := by
      rw [hnumrest, bytesToNat_eq_ofDigits]
      exact Nat.digits_ofDigits 256 (by norm_num) rest.reverse hrestbound hgetlast
    rw [henc]
    simp only [b58decode, hones, hdrop, hdec, hfold]
    rw [digitsLE_eq 256 num (by norm_num), hdigits256, List.reverse_reverse]
    exact congrArg some hsplit.symm

/-- The cache-free Tron Base58 encoder agrees with the spec/library
encoding on every byte string (the special-cased all-zero branch produces the
same all-`'1'` string the general formula gives). -/
theorem ultraFastBase58Pure_eq_spec (data : List Nat) :
    ultraFastBase58Pure data = b58encodeSpec data := by
  rw [ultraFastBase58Pure, b58encodeSpec, digitsLE_eq 58 _ (by norm_num)]
  by_cases hnum : bytesToNat data = 0
  · have hall : ∀ b ∈ data, b = 0 := (bytesToNat_eq_zero_iff data).mp hnum
    have hclz : countLeadingZeroBytes data = data.length :=
      countLeadingZeroBytes_of_all_zero data hall
    simp [hnum, hclz]
  · simp only [if_neg hnum, b58Loop_eq, List.append_nil]

/-- The cache-free Bitcoin-family Base58 encoder agrees with the spec/library
encoding on every byte string. -/
theorem fastBase58EncodePure_eq_spec (data : List Nat) :
    fastBase58EncodePure data = b58encodeSpec data := by
  rw [fastBase58EncodePure, b58encodeSpec, digitsLE_eq 58 _ (by norm_num)]
  simp only [b58Loop_eq, List.append_nil]

/-- Hexadecimal digit characters are injective below 16. -/
theorem hexDigitChar_inj : ∀ d1, d1 < 16 → ∀ d2, d2 < 16 →
    hexDigitChar d1 = hexDigitChar d2 → d1 = d2 := by
  decide

/-- The two-character rendering of a byte is injective below 256. -/
theorem byteHexChars_inj (b1 b2 : Nat) (h1 : b1 < 256) (h2 : b2 < 256)
    (h : byteHexChars b1 = byteHexChars b2) : b1 = b2 := by
  simp only [byteHexChars, List.cons.injEq, and_true] at h
  have hhi : b1 / 16 = b2 / 16 :=
    hexDigitChar_inj _ (Nat.div_lt_of_lt_mul h1) _ (Nat.div_lt_of_lt_mul h2) h.1
  have hlo : b1 % 16 = b2 % 16 :=
    hexDigitChar_inj _ (Nat.mod_lt _ (by norm_num)) _ (Nat.mod_lt _ (by norm_num)) h.2
  omega

/-- Hexadecimal rendering (`data.hex()`) is injective on byte strings. -/
theorem bytesHex_inj : ∀ l1 l2 : List Nat, (∀ b ∈ l1, b < 256) → (∀ b ∈ l2, b < 256) →
    bytesHex l1 = bytesHex l2 → l1 = l2 := by
  intro l1
  induction l1 with
  | nil =>
      intro l2 _ _ h
      cases l2 with
      | nil => rfl
      | cons b t => simp [bytesHex, byteHexChars] at h
  | cons b1 t1 ih =>
      intro l2 hb1 hb2 h
      cases l2 with
      | nil => simp [bytesHex, byteHexChars] at h
      | cons b2 t2 =>
          simp only [bytesHex, List.flatMap_cons] at h
          have hlen : (byteHexChars b1).length = (byteHexChars b2).length := rfl
          obtain ⟨hh, ht⟩ := List.append_inj h hlen
          have hb : b1 = b2 :=
            byteHexChars_inj b1 b2 (hb1 b1 (by simp)) (hb2 b2 (by simp)) hh
          have htl : t1 = t2 :=
            ih t2 (fun x hx => hb1 x (by simp [hx])) (fun x hx => hb2 x (by simp [hx])) ht
          rw [hb, htl]

/-- A hit in a coherent cache under a byte string's hex key returns exactly
that byte string's spec encoding (hex keys are injective on byte strings). -/
theorem cacheLookup_coherent (cache : B58Cache) (data : List Nat) (v : List Char)
    (hcoh : cacheCoherent cache) (hdata : ∀ b ∈ data, b < 256)
    (hl : cacheLookup cache (bytesHex data) = some v) : v = b58encodeSpec data := by
  induction cache with
  | nil => simp [cacheLookup] at hl
  | cons p rest ih =>
      obtain ⟨k, w⟩ := p
      by_cases hk : k = bytesHex data
      · simp only [cacheLookup, if_pos hk] at hl
        obtain ⟨d, hdb, hkey, hval⟩ := hcoh (k, w) (by simp)
        have hdd : d = data := by
          apply bytesHex_inj d data hdb hdata
          rw [← hkey, hk]
        have hwv : w = v := Option.some.inj hl
        simp only at hval
        rw [← hwv, hval, hdd]
      · simp only [cacheLookup, if_neg hk] at hl
        exact ih (fun q hq => hcoh q (by simp [hq])) hl

/-- One call of the cached Tron Base58 encoder on a coherent cache returns the
spec encoding and leaves the cache coherent. -/
theorem ultraFastBase58_correct (cache : B58Cache) (data : List Nat)
    (hcoh : cacheCoherent cache) (hdata : ∀ b ∈ data, b < 256) :
    (ultraFastBase58 cache data).1 = b58encodeSpec data ∧
      cacheCoherent (ultraFastBase58 cache data).2 := by
  by_cases hlen : data.length ≤ 8
  · cases hcl : cacheLookup cache (bytesHex data) with
    | some v =>
        have hv : v = b58encodeSpec data := cacheLookup_coherent cache data v hcoh hdata hcl
        simp only [ultraFastBase58, if_pos hlen, hcl]
        exact ⟨hv, hcoh⟩
    | none =>
        simp only [ultraFastBase58, if_pos hlen, hcl]
        constructor
        · exact ultraFastBase58Pure_eq_spec data
        · by_cases hsize :
            1000 < ((bytesHex data, ultraFastBase58Pure data) :: cache).length
          · simp only [if_pos hsize]
            intro p hp
            simp at hp
          · simp only [if_neg hsize]
            intro p hp
            rcases List.mem_cons.mp hp with hp | hp
            · exact ⟨data, hdata, by rw [hp], by rw [hp]; exact ultraFastBase58Pure_eq_spec data⟩
            · exact hcoh p hp
  · simp only [ultraFastBase58, if_neg hlen]
    exact ⟨ultraFastBase58Pure_eq_spec data, hcoh⟩

/-- One call of the cached Bitcoin-family Base58 encoder on a coherent cache
returns the spec encoding and leaves the cache coherent. -/
theorem fastBase58Encode_correct (cache : B58Cache) (data : List Nat)
    (hcoh : cacheCoherent cache) (hdata : ∀ b ∈ data, b < 256) :
    (fastBase58Encode cache data).1 = b58encodeSpec data ∧
      cacheCoherent (fastBase58Encode cache data).2 := by
  by_cases hlen : data.length ≤ 8
  · cases hcl : cacheLookup cache (bytesHex data) with
    | some v =>
        have hv : v = b58encodeSpec data := cacheLookup_coherent cache data v hcoh hdata hcl
        simp only [fastBase58Encode, if_pos hlen, hcl]
        exact ⟨hv, hcoh⟩
    | none =>
        simp only [fastBase58Encode, if_pos hlen, hcl]
        constructor
        · exact fastBase58EncodePure_eq_spec data
        · by_cases hsize :
            500 < ((bytesHex data, fastBase58EncodePure data) :: cache).length
          · simp only [if_pos hsize]
            intro p hp
            simp at hp
          · simp only [if_neg hsize]
            intro p hp
            rcases List.mem_cons.mp hp with hp | hp
            · exact ⟨data, hdata, by rw [hp], by rw [hp]; exact fastBase58EncodePure_eq_spec data⟩
            · exact hcoh p hp
  · simp only [fastBase58Encode, if_neg hlen]
    exact ⟨fastBase58EncodePure_eq_spec data, hcoh⟩

/-- The monitor collection loop only redistributes: collected plus still-queued
records are exactly the initial records plus the whole queue. -/
theorem monitorCollectLoop_append (t : Nat) :
    ∀ (queue found : List OptimizedKey),
      (monitorCollectLoop t found queue).1 ++ (monitorCollectLoop t found queue).2
        = found ++ queue := by
  intro queue
  induction queue with
  | nil => intro found; simp [monitorCollectLoop]
  | cons r rest ih =>
      intro found
      by_cases hc : 0 < t ∧ t ≤ (found ++ [r]).length
      · rw [monitorCollectLoop, if_pos hc]
        simp
      · rw [monitorCollectLoop, if_neg hc, ih (found ++ [r])]
        simp

/-- Entered below a positive ceiling, the monitor collection loop never
collects past the ceiling. -/
theorem monitorCollectLoop_ceiling (t : Nat) (ht : 0 < t) :
    ∀ (queue found : List OptimizedKey),
      found.length < t → (monitorCollectLoop t found queue).1.length ≤ t := by
  intro queue
  induction queue with
  | nil =>
      intro found hf
      simp only [monitorCollectLoop]
      omega
  | cons r rest ih =>
      intro found hf
      by_cases hc : 0 < t ∧ t ≤ (found ++ [r]).length
      · simp only [monitorCollectLoop, if_pos hc]
        simp only [List.length_append, List.length_cons, List.length_nil] at hc ⊢
        omega
      · have hlen : (found ++ [r]).length < t := by
          simp only [List.length_append, List.length_cons, List.length_nil] at hc ⊢
          omega
        simp only [monitorCollectLoop, if_neg hc]
        exact ih (found ++ [r]) hlen

/-- Every digit below 16 renders to a lowercase hexadecimal character. -/
theorem hexDigitChar_mem : ∀ d, d < 16 → hexDigitChar d ∈ "0123456789abcdef".toList := by
  decide

/-- Every character of the hex rendering of a byte string is a lowercase
hexadecimal digit. -/
theorem bytesHex_chars (data : List Nat) (h : ∀ b ∈ data, b < 256) :
    ∀ c ∈ bytesHex data, c ∈ "0123456789abcdef".toList := by
  intro c hc
  obtain ⟨b, hb, hcb⟩ := List.mem_flatMap.mp hc
  have hb256 : b < 256 := h b hb
  rcases List.mem_cons.mp hcb with hcb | hcb
  · rw [hcb]
    exact hexDigitChar_mem _ (Nat.div_lt_of_lt_mul hb256)
  · rcases List.mem_cons.mp hcb with hcb | hcb
    · rw [hcb]
      exact hexDigitChar_mem _ (Nat.mod_lt _ (by norm_num))
    · simp at hcb

/-- Base58Check generic round-trip: the checksum check succeeds on any string
assembled as `payload ‖ first-4-of-double-hash(payload)` and then
Base58-encoded, for any 32-byte-output hash primitive. -/
theorem b58checkVerify_encode (sha256 : List Nat → List Nat) (payload : List Nat)
    (hlen : ∀ x, (sha256 x).length = 32) (hbound : ∀ x, ∀ b ∈ sha256 x, b < 256)
    (hpayload : ∀ b ∈ payload, b < 256) :
    b58checkVerify sha256
      (b58encodeSpec (payload ++ (sha256 (sha256 payload)).take 4)) = true := by
  set cs := (sha256 (sha256 payload)).take 4 with hcs
  have hcsbound : ∀ b ∈ cs, b < 256 := fun b hb =>
    hbound _ b (List.mem_of_mem_take hb)
  have hfull : ∀ b ∈ payload ++ cs, b < 256 := by
    intro b hb
    rcases List.mem_append.mp hb with hb | hb
    · exact hpayload b hb
    · exact hcsbound b hb
  have hdec := b58decode_b58encodeSpec (payload ++ cs) hfull
  have hcslen : cs.length = 4 := by
    rw [hcs, List.length_take, hlen]
    omega
  have hlen2 : (payload ++ cs).length - 4 = payload.length := by
    simp [hcslen]
  simp only [b58checkVerify, hdec, hlen2]
  have htake : (payload ++ cs).take payload.length = payload := List.take_left _ _
  have hdrop : (payload ++ cs).drop payload.length = cs := List.drop_left _ _
  rw [htake, hdrop]
  simp [hcs]

/-! ## Claim theorems -/

/-- C1: the claim states that every Base58Check codec rejects or corrects any
sampled scalar outside `(0, curve_order)` before use.  The code violates this:
`OptimizedBitcoinNetwork.generate` inspects only the first byte, so the
all-`0xFF` sample — whose scalar `2^256 - 1` is at or above the secp256k1
group order — passes through unchanged and is embedded in the emitted record;
and the `BitcoinLikeNetwork`/`TronNetwork` resampling loop accepts the
all-zero sample, whose scalar is `0`, violating the lower bound as well.  (By
contrast, `OptimizedTronNetwork.generate` does fold an out-of-range scalar
back into range.) -/
theorem c1_scalar_range_violated :
    optimizedBitcoinKeyFix (List.replicate 32 255) = List.replicate 32 255 ∧
    secp256k1Order ≤ bytesToNat (optimizedBitcoinKeyFix (List.replicate 32 255)) ∧
    bitcoinLikeSampleLoop [List.replicate 32 0] = some (List.replicate 32 0) ∧
    bytesToNat (List.replicate 32 0) = 0 ∧
    0 < optimizedTronKeyFix (bytesToNat (List.replicate 32 255)) ∧
    optimizedTronKeyFix (bytesToNat (List.replicate 32 255)) < secp256k1Order := by
  decide

/-- C2: the claim states that the Keccak-256 helpers either return a true
Keccak-256 digest or raise, never a silent substitute.  The code violates
this: with `pycryptodome` unavailable, `TronNetwork._keccak256` silently
returns a SHA3-256 digest, and the `_fast_keccak256` helpers of the optimized
Tron and Ethereum codecs fall back silently to SHA3-256 and then even to
SHA-256, never raising. -/
theorem c2_keccak_silent_fallback :
    tronKeccak256 ⟨false, true⟩ = .ok .sha3of256 ∧
    optimizedTronFastKeccak256 ⟨false, true⟩ = .sha3of256 ∧
    optimizedTronFastKeccak256 ⟨false, false⟩ = .sha256 ∧
    optimizedEthereumFastKeccak256 ⟨false, true⟩ = .sha3of256 ∧
    optimizedEthereumFastKeccak256 ⟨false, false⟩ = .sha256 ∧
    tronKeccak256 ⟨true, true⟩ = .ok .keccak256 :=
  ⟨rfl, rfl, rfl, rfl, rfl, rfl⟩

/-- C3 (counterexample): with `target_count = 1` and three matches in the
result queue when the stop sequence runs, all three records are collected and
`save_results` writes all three rows — the claimed ceiling of 1 persisted
record is exceeded. -/
theorem c3_ceiling_counterexample :
    (persistedRecords 1 [] c3Queue).length = 3 ∧
    saveResults (persistedRecords 1 [] c3Queue) = some (persistedRecords 1 [] c3Queue) ∧
    ¬((persistedRecords 1 [] c3Queue).length ≤ 1) := by
  refine ⟨rfl, rfl, ?_⟩
  decide

/-- C3 (amended): the monitor loop itself, entered with fewer collected
records than a positive `target_count`, never collects past the ceiling and
stops there; but the final drain of `stop()` appends every match still in the
queue and `save_results` persists every collected record, so the persisted
records are exactly the collected ones plus the entire residual queue and may
exceed `target_count`. -/
theorem c3_persistence_amended :
    ∀ (targetCount : Nat) (found queue : List OptimizedKey),
      (0 < targetCount → found.length < targetCount →
        (monitorCollectLoop targetCount found queue).1.length ≤ targetCount) ∧
      persistedRecords targetCount found queue = found ++ queue := by
  intro t found queue
  constructor
  · intro ht hf
    exact monitorCollectLoop_ceiling t ht queue found hf
  · rw [persistedRecords, collectFinalResults]
    exact monitorCollectLoop_append t queue found

/-- C3 (witness): the amended statement applied at target count 1 with the
concrete three-element queue. -/
theorem c3_persistence_witness :
    (0 < 1 ∧ ([] : List OptimizedKey).length < 1) ∧
    (monitorCollectLoop 1 [] c3Queue).1.length ≤ 1 ∧
    persistedRecords 1 [] c3Queue = [] ++ c3Queue :=
  ⟨⟨by decide, by decide⟩,
    (c3_persistence_amended 1 [] c3Queue).1 (by decide) (by decide),
    (c3_persistence_amended 1 [] c3Queue).2⟩

/-- C4 (counterexample): the unconditional claim fails on the reachable
fallback paths of `_optimized_private_key_to_address`.  With secp256k1
unavailable the digested bytes are `_fallback_pubkey`'s
`sha256(priv) ‖ sha256(sha256(priv))`, not the uncompressed ECDSA public key;
and with secp256k1 fine but `pycryptodome` missing, `_fast_keccak256` digests
with SHA3-256 instead of Keccak-256.  In both environments the produced
address differs from the claimed
`"0x" + lowerhex(last 20 of Keccak-256(stripped 64-byte pubkey))` (the
claim-side formula being `ethAccountAddress` applied to the true Keccak
primitive) at the concrete primitives `c4Serialize`/`c4DigestTable`/
`c4Sha256` and the empty private key. -/
theorem c4_evm_address_counterexample :
    optimizedEthereumAddress ⟨false, false, ⟨true, true⟩⟩
        c4Serialize c4DigestTable c4Sha256 []
      ≠ ethAccountAddress c4Serialize (c4DigestTable DigestAlgo.keccak256) [] ∧
    optimizedEthereumAddress ⟨true, true, ⟨false, true⟩⟩
        c4Serialize c4DigestTable c4Sha256 []
      ≠ ethAccountAddress c4Serialize (c4DigestTable DigestAlgo.keccak256) [] := by
  decide

/-- C4 (amended): whenever the secp256k1 backend is available and its calls
succeed and the Keccak-256 backend (`pycryptodome`) is importable, the
produced address is exactly `"0x"` followed by the lowercase hexadecimal
rendering of the last 20 bytes of the Keccak-256 digest of the 64-byte
uncompressed public key with its leading format byte stripped (the claim-side
formula `ethAccountAddress`), the digest input having length 64 for a
standard 65-byte serialization; in every environment the spec-modelled
EVM-chain codecs produce the identical string, the address is `"0x"` plus the
lowercase hex of the last 20 bytes of whatever digest `_fast_keccak256`
resolves to applied to whatever public-key bytes the codec selected, and
every character after the `"0x"` tag is a lowercase hexadecimal digit.  On
the fallback paths the digested bytes are not the ECDSA public key and the
digest need not be Keccak-256, as the counterexample shows. -/
theorem c4_evm_address_amended :
    ∀ (env : EvmCodecEnv) (serialize : List Nat → List Nat)
      (digest : DigestAlgo → List Nat → List Nat) (sha256 : List Nat → List Nat)
      (privateKeyBytes : List Nat),
      (env.secp256k1Available = true → env.secp256k1Succeeds = true →
        env.hash.pycryptodomeAvailable = true →
        (serialize privateKeyBytes).length = 65 →
          optimizedEthereumAddress env serialize digest sha256 privateKeyBytes
              = ethAccountAddress serialize (digest DigestAlgo.keccak256)
                  privateKeyBytes ∧
          optimizedEthereumPubkey env serialize sha256 privateKeyBytes
              = (serialize privateKeyBytes).drop 1 ∧
          (optimizedEthereumPubkey env serialize sha256 privateKeyBytes).length = 64) ∧
      optimizedEvmChainAddress env serialize digest sha256 privateKeyBytes
          = optimizedEthereumAddress env serialize digest sha256 privateKeyBytes ∧
      optimizedEthereumAddress env serialize digest sha256 privateKeyBytes
          = '0' :: 'x' :: bytesHex (takeLast20
              (digest (optimizedEthereumFastKeccak256 env.hash)
                (optimizedEthereumPubkey env serialize sha256 privateKeyBytes))) ∧
      ((∀ b ∈ digest (optimizedEthereumFastKeccak256 env.hash)
            (optimizedEthereumPubkey env serialize sha256 privateKeyBytes), b < 256) →
        ∀ c ∈ (optimizedEthereumAddress env serialize digest sha256
            privateKeyBytes).drop 2,
          c ∈ "0123456789abcdef".toList) := by
  intro env serialize digest sha256 priv
  refine ⟨?_, rfl, rfl, ?_⟩
  · intro h1 h2 h3 hserlen
    have hpub : optimizedEthereumPubkey env serialize sha256 priv
        = (serialize priv).drop 1 := by
      rw [optimizedEthereumPubkey, if_pos (by simp [h1, h2])]
    have halgo : optimizedEthereumFastKeccak256 env.hash = DigestAlgo.keccak256 := by
      rw [optimizedEthereumFastKeccak256, if_pos (by simp [h3])]
    refine ⟨?_, hpub, ?_⟩
    · rw [optimizedEthereumAddress, ethAccountAddress, hpub, halgo]
    · rw [hpub, List.length_drop, hserlen]
  · intro hbound c hc
    have hc2 : c ∈ bytesHex (takeLast20
        (digest (optimizedEthereumFastKeccak256 env.hash)
          (optimizedEthereumPubkey env serialize sha256 priv))) := by
      simpa [optimizedEthereumAddress] using hc
    refine bytesHex_chars _ ?_ c hc2
    intro b hb
    exact hbound b (List.mem_of_mem_drop hb)

/-- C4 (witness): the amended statement applied in the fully available
environment to the concrete primitives at the empty private key. -/
theorem c4_evm_address_witness :
    (c4Serialize []).length = 65 ∧
    optimizedEthereumAddress ⟨true, true, ⟨true, true⟩⟩
        c4Serialize c4DigestTable c4Sha256 []
      = ethAccountAddress c4Serialize (c4DigestTable DigestAlgo.keccak256) [] ∧
    (optimizedEthereumPubkey ⟨true, true, ⟨true, true⟩⟩ c4Serialize c4Sha256 []).length
      = 64 :=
  ⟨by decide,
    ((c4_evm_address_amended ⟨true, true, ⟨true, true⟩⟩
        c4Serialize c4DigestTable c4Sha256 []).1 rfl rfl rfl (by decide)).1,
    ((c4_evm_address_amended ⟨true, true, ⟨true, true⟩⟩
        c4Serialize c4DigestTable c4Sha256 []).1 rfl rfl rfl (by decide)).2.2⟩

/-- C5: the pattern matcher strips a leading `"0x"` for hex/EVM currencies,
lowercases both operands when `ignore_case` is set, tests `startsWith` for
`"prefix"` and `endsWith` for `"suffix"` (stated as agreement with the
claim-side description `matchSpecResult` on those two pattern types); in
particular a `"0xABCDEF01..."` address matches the prefix `"abc"` for `ETH`
with `ignore_case` and does not match without it. -/
theorem c5_pattern_matcher :
    (∀ (address : List Char) (currency : String) (pattern : List Char) (ignoreCase : Bool),
        check_address_pattern address currency pattern "prefix" ignoreCase
          = .ok (matchSpecResult address currency pattern "prefix" ignoreCase) ∧
        check_address_pattern address currency pattern "suffix" ignoreCase
          = .ok (matchSpecResult address currency pattern "suffix" ignoreCase)) ∧
    (∀ rest : List Char,
        check_address_pattern
          ('0' :: 'x' :: 'A' :: 'B' :: 'C' :: 'D' :: 'E' :: 'F' :: '0' :: '1' :: rest)
          "ETH" ['a', 'b', 'c'] "prefix" true = .ok true) ∧
    (∀ rest : List Char,
        check_address_pattern
          ('0' :: 'x' :: 'A' :: 'B' :: 'C' :: 'D' :: 'E' :: 'F' :: '0' :: '1' :: rest)
          "ETH" ['a', 'b', 'c'] "prefix" false = .ok false) := by
  refine ⟨fun address currency pattern ignoreCase => ⟨rfl, rfl⟩, ?_, ?_⟩
  · intro rest
    simp [check_address_pattern, evmCurrencies, pyLower, pyLowerChar, List.isPrefixOf]
  · intro rest
    simp [check_address_pattern, evmCurrencies, List.isPrefixOf]

/-- C6: the difficulty estimator is pure arithmetic: the returned probability
is `alphabet_size(currency) ^ length(pattern)` with alphabet 58 for the
Base58Check chains and 16 for the hex chains; the two concrete instances give
16 and 3364; and the projected time is the probability divided by the baseline
throughput of its difficulty tier, with the throughput strictly decreasing
from each tier to the next across the thresholds `10^2`, `10^4`, `10^6`,
`10^8`, `10^10`. -/
theorem c6_difficulty_estimator :
    (∀ (pattern : List Char) (patternType currency : String),
        (estimate_pattern_difficulty pattern patternType currency).2.1
          = alphabetSizeOf currency ^ pattern.length) ∧
    (alphabetSizeOf "BTC" = 58 ∧ alphabetSizeOf "LTC" = 58 ∧
      alphabetSizeOf "DOGE" = 58 ∧ alphabetSizeOf "TRX" = 58 ∧
      alphabetSizeOf "ETH" = 16 ∧ alphabetSizeOf "BSC" = 16 ∧
      alphabetSizeOf "MATIC" = 16 ∧ alphabetSizeOf "ARB" = 16 ∧
      alphabetSizeOf "OP" = 16) ∧
    (estimate_pattern_difficulty ['a'] "prefix" "ETH").2.1 = 16 ∧
    (estimate_pattern_difficulty ['a', 'b'] "prefix" "BTC").2.1 = 3364 ∧
    (∀ (pattern : List Char) (patternType currency : String),
        (estimate_pattern_difficulty pattern patternType currency).2.2
          = ((estimate_pattern_difficulty pattern patternType currency).2.1 : ℚ)
              / baselineThroughput
                  (difficultyTier
                    (estimate_pattern_difficulty pattern patternType currency).2.1)) ∧
    (baselineThroughput 1 < baselineThroughput 0 ∧
      baselineThroughput 2 < baselineThroughput 1 ∧
      baselineThroughput 3 < baselineThroughput 2 ∧
      baselineThroughput 4 < baselineThroughput 3 ∧
      baselineThroughput 5 < baselineThroughput 4) := by
  refine ⟨?_, by decide, by decide, by decide, ?_, by norm_num [baselineThroughput]⟩
  · intro pattern patternType currency
    simp only [estimate_pattern_difficulty]
    split_ifs <;> rfl
  · intro pattern patternType currency
    set prob := alphabetSizeOf currency ^ pattern.length with hprob
    have hfst : (estimate_pattern_difficulty pattern patternType currency).2.1 = prob := by
      simp only [estimate_pattern_difficulty]
      split_ifs <;> rfl
    rw [hfst]
    by_cases h1 : prob ≤ 100
    · have ht : difficultyTier prob = 0 := by
        simp only [difficultyTier]
        rw [if_pos (by norm_num; omega)]
      simp only [estimate_pattern_difficulty, ← hprob, if_pos h1, ht, baselineThroughput]
    · by_cases h2 : prob ≤ 10000
      · have ht : difficultyTier prob = 1 := by
          simp only [difficultyTier]
          rw [if_neg (by norm_num; omega), if_pos (by norm_num; omega)]
        simp only [estimate_pattern_difficulty, ← hprob, if_neg h1, if_pos h2, ht,
          baselineThroughput]
      · by_cases h3 : prob ≤ 1000000
        · have ht : difficultyTier prob = 2 := by
            simp only [difficultyTier]
            rw [if_neg (by norm_num; omega), if_neg (by norm_num; omega),
              if_pos (by norm_num; omega)]
          simp only [estimate_pattern_difficulty, ← hprob, if_neg h1, if_neg h2, if_pos h3,
            ht, baselineThroughput]
        · by_cases h4 : prob ≤ 100000000
          · have ht : difficultyTier prob = 3 := by
              simp only [difficultyTier]
              rw [if_neg (by norm_num; omega), if_neg (by norm_num; omega),
                if_neg (by norm_num; omega), if_pos (by norm_num; omega)]
            simp only [estimate_pattern_difficulty, ← hprob, if_neg h1, if_neg h2,
              if_neg h3, if_pos h4, ht, baselineThroughput]
          · by_cases h5 : prob ≤ 10000000000
            · have ht : difficultyTier prob = 4 := by
                simp only [difficultyTier]
                rw [if_neg (by norm_num; omega), if_neg (by norm_num; omega),
                  if_neg (by norm_num; omega), if_neg (by norm_num; omega),
                  if_pos (by norm_num; omega)]
              simp only [estimate_pattern_difficulty, ← hprob, if_neg h1, if_neg h2,
                if_neg h3, if_neg h4, if_pos h5, ht, baselineThroughput]
            · have ht : difficultyTier prob = 5 := by
                simp only [difficultyTier]
                rw [if_neg (by norm_num; omega), if_neg (by norm_num; omega),
                  if_neg (by norm_num; omega), if_neg (by norm_num; omega),
                  if_neg (by norm_num; omega)]
              simp only [estimate_pattern_difficulty, ← hprob, if_neg h1, if_neg h2,
                if_neg h3, if_neg h4, if_neg h5, ht, baselineThroughput]

/-- C7 (counterexample): with 4 CPUs and an explicit worker count of 0, the
engine's effective worker count is `min(0, 8) = 0`, below the claimed lower
clamp of 1 — the explicit-override path applies no lower bound. -/
theorem c7_lower_clamp_counterexample :
    effectiveWorkerCount 4 (some 0) "Легко" = 0 ∧
    ¬(1 ≤ effectiveWorkerCount 4 (some 0) "Легко") := by
  decide

/-- C7 (amended): an explicitly supplied worker count `w` is capped above by
`2 × cpu_count` (the effective count is exactly `min w (2·cpu)`), and for
`w ≥ 1` on a machine with at least one CPU the effective count lies in
`[1, 2·cpu]`; but `w ≤ 0` is used as-is, so no lower clamp to 1 exists. -/
theorem c7_worker_clamp_amended :
    ∀ (cpuCount : Nat) (w : Int) (difficulty : String),
      effectiveWorkerCount cpuCount (some w) difficulty = min w (2 * (cpuCount : Int)) ∧
      effectiveWorkerCount cpuCount (some w) difficulty ≤ 2 * (cpuCount : Int) ∧
      (1 ≤ w → 1 ≤ (cpuCount : Int) →
        1 ≤ effectiveWorkerCount cpuCount (some w) difficulty) := by
  intro cpu w d
  refine ⟨rfl, min_le_right _ _, ?_⟩
  intro hw hcpu
  exact le_min hw (by omega)

/-- C7 (witness): the amended statement applied with 4 CPUs and explicit
worker count 3. -/
theorem c7_worker_clamp_witness :
    ((1 : Int) ≤ 3 ∧ (1 : Int) ≤ ((4 : Nat) : Int)) ∧
    1 ≤ effectiveWorkerCount 4 (some 3) "Легко" :=
  ⟨⟨by decide, by decide⟩,
    (c7_worker_clamp_amended 4 3 "Легко").2.2 (by decide) (by decide)⟩

/-- C8: Base58Check round-trip — for any double-SHA-256 primitive with
32-byte outputs, decoding a WIF string or P2PKH address produced by the
Base58Check codecs and splitting off the trailing 4 bytes yields a payload
whose recomputed first-4-bytes-of-SHA-256(SHA-256(payload)) checksum equals
those trailing bytes exactly. -/
theorem c8_base58check_roundtrip :
    ∀ (sha256 ripemd160 : List Nat → List Nat) (wifVersion p2pkhVersion : Nat)
      (privateKeyBytes pubkey : List Nat),
      (∀ x, (sha256 x).length = 32) →
      (∀ x, ∀ b ∈ sha256 x, b < 256) →
      (∀ x, ∀ b ∈ ripemd160 x, b < 256) →
      wifVersion < 256 → p2pkhVersion < 256 →
      (∀ b ∈ privateKeyBytes, b < 256) →
      b58checkVerify sha256 (private_key_to_wif sha256 wifVersion privateKeyBytes) = true ∧
      b58checkVerify sha256
        (private_key_to_p2pkh_address sha256 ripemd160 p2pkhVersion pubkey) = true := by
  intro sha256 ripemd160 wifVersion p2pkhVersion priv pubkey
  intro hlen hbound hrbound hwv hpv hpriv
  constructor
  · rw [private_key_to_wif]
    apply b58checkVerify_encode sha256 _ hlen hbound
    intro b hb
    rcases List.mem_cons.mp hb with hb | hb
    · omega
    · rcases List.mem_append.mp hb with hb | hb
      · exact hpriv b hb
      · simp at hb
        omega
  · rw [private_key_to_p2pkh_address]
    apply b58checkVerify_encode sha256 _ hlen hbound
    intro b hb
    rcases List.mem_cons.mp hb with hb | hb
    · omega
    · exact hrbound _ b hb

/-- C8 (witness): the round-trip applied with a concrete 32-byte hash
primitive, the Bitcoin WIF version byte `0x80` and a concrete 32-byte key. -/
theorem c8_base58check_witness :
    (List.range 32).length = 32 ∧
    b58checkVerify (fun _ => List.range 32)
      (private_key_to_wif (fun _ => List.range 32) 128 (List.replicate 32 1)) = true :=
  ⟨by decide,
    (c8_base58check_roundtrip (fun _ => List.range 32) (fun _ => List.replicate 20 7)
      128 0 (List.replicate 32 1) []
      (fun _ => (by decide : (List.range 32).length = 32))
      (fun _ => (by decide : ∀ b ∈ List.range 32, b < 256))
      (fun _ => (by decide : ∀ b ∈ List.replicate 20 7, b < 256))
      (by decide) (by decide) (by decide)).1⟩

/-- C9: the hand-rolled Base58 encoders of the optimized codecs agree with the
standard library encoding (modelled from the claim as `b58encodeSpec`: each
leading zero byte becomes `'1'`, the remainder the big-endian base-58
expansion over the standard alphabet) on every byte string, and the caches
never change the returned value: on any coherent cache state a call returns
the spec encoding and leaves the cache coherent. -/
theorem c9_base58_refinement :
    (∀ data : List Nat, ultraFastBase58Pure data = b58encodeSpec data) ∧
    (∀ data : List Nat, fastBase58EncodePure data = b58encodeSpec data) ∧
    (∀ (cache : B58Cache) (data : List Nat),
        cacheCoherent cache → (∀ b ∈ data, b < 256) →
        (ultraFastBase58 cache data).1 = b58encodeSpec data ∧
          cacheCoherent (ultraFastBase58 cache data).2) ∧
    (∀ (cache : B58Cache) (data : List Nat),
        cacheCoherent cache → (∀ b ∈ data, b < 256) →
        (fastBase58Encode cache data).1 = b58encodeSpec data ∧
          cacheCoherent (fastBase58Encode cache data).2) :=
  ⟨ultraFastBase58Pure_eq_spec, fastBase58EncodePure_eq_spec,
    fun cache data hcoh hdata => ultraFastBase58_correct cache data hcoh hdata,
    fun cache data hcoh hdata => fastBase58Encode_correct cache data hcoh hdata⟩

/-- C9 (witness): the cached encoder applied on the empty (trivially
coherent) cache to the concrete byte string `[0, 255]`. -/
theorem c9_base58_witness :
    cacheCoherent [] ∧
    (ultraFastBase58 [] [0, 255]).1 = b58encodeSpec [0, 255] ∧
    cacheCoherent (ultraFastBase58 [] [0, 255]).2 :=
  ⟨fun p hp => absurd hp (List.not_mem_nil p),
    (c9_base58_refinement.2.2.1 [] [0, 255]
      (fun p hp => absurd hp (List.not_mem_nil p)) (by decide)).1,
    (c9_base58_refinement.2.2.1 [] [0, 255]
      (fun p hp => absurd hp (List.not_mem_nil p)) (by decide)).2⟩

/-- C10: the empty pattern matches every address for both pattern types, any
currency and either case mode: an empty pattern is a prefix and a suffix of
every (possibly stripped, possibly lowercased) address. -/
theorem c10_empty_pattern_matches :
    ∀ (address : List Char) (currency : String) (ignoreCase : Bool),
      check_address_pattern address currency [] "prefix" ignoreCase = .ok true ∧
      check_address_pattern address currency [] "suffix" ignoreCase = .ok true := by
  intro address currency ignoreCase
  constructor <;>
    · simp only [check_address_pattern]
      split_ifs <;> simp [pyLower, List.isPrefixOf, List.isSuffixOf]
